import Mathlib

/-!
Verification of the swap-quoting core of `cardex/dexs/abstract_classes.py`
(charli3-dendrite). The two pricing curves are embedded shallowly:

* `CPPool.get_amount_out` embeds `AbstractConstantProductPoolState.get_amount_out`
  (integer arithmetic, with the final price-impact ratio taken in `ℚ` in place
  of the Python float division of two exact integers).
* `SSPool.get_D`, `SSPool.get_y` and `SSPool.get_amount_out` embed
  `AbstractStableSwapPoolState._get_D`, `._get_y` and `.get_amount_out`
  (Python float arithmetic modelled as exact `ℚ` arithmetic).

Python operations that can raise (assert failures, `ValueError`, and
`ZeroDivisionError` on division by zero) are modelled with `Except Err`:
every division of the source is preceded by an explicit zero test on its
divisor, mirroring the run-time check the Python interpreter performs.
-/

namespace Cardex

/-- Modelled from the spec: the error taxonomy of §7.  `invalidInput` stands
for the `InvalidInput` condition (the Python `assert` failures and
`ValueError`s of the source), `divByZero` for a Python `ZeroDivisionError`. -/
inductive Err where
  | invalidInput : Err
  | divByZero : Err
deriving DecidableEq

/-- Modelled from the spec: the asset-quantity bag of §3 (`Assets` in
`cardex.dataclasses.models`, which is not part of the sources under review):
a mapping from asset identifier to an integer quantity, kept here as an
association list.  Only single-entry bags are ever constructed by the core. -/
abbrev Assets := List (String × ℤ)

/-- Modelled from the spec: `Assets.unit()` returns the identifier of the
bag's (first) entry. -/
def Assets.unit (a : Assets) : String := ((a.head?).map Prod.fst).getD ""

/-- Modelled from the spec: `Assets.quantity()` returns the quantity of the
bag's (first) entry. -/
def Assets.quantity (a : Assets) : ℤ := ((a.head?).map Prod.snd).getD 0

/-- A constant-product pool state: the fields of `AbstractPoolState` that
`AbstractConstantProductPoolState.get_amount_out` reads. -/
structure CPPool where
  unit_a : String
  unit_b : String
  reserve_a : ℤ
  reserve_b : ℤ
  volume_fee : ℤ

/-- Embedding of `AbstractConstantProductPoolState.get_amount_out`
(abstract_classes.py lines 71-111).  The two `assert` statements become
`invalidInput` errors; the two integer/float divisions are guarded by the
zero tests Python performs at run time. -/
def CPPool.get_amount_out (s : CPPool) (asset : Assets) : Except Err (Assets × ℚ) :=
  if asset.length = 1 then
    if Assets.unit asset = s.unit_a ∨ Assets.unit asset = s.unit_b then
      let reserve_in : ℤ := if Assets.unit asset = s.unit_a then s.reserve_a else s.reserve_b
      let reserve_out : ℤ := if Assets.unit asset = s.unit_a then s.reserve_b else s.reserve_a
      let unit_out : String := if Assets.unit asset = s.unit_a then s.unit_b else s.unit_a
      let fee_modifier : ℤ := 10000 - s.volume_fee
      let numerator : ℤ := Assets.quantity asset * fee_modifier * reserve_out
      let denominator : ℤ := Assets.quantity asset * fee_modifier + reserve_in * 10000
      if denominator = 0 then .error .divByZero
      else
        let amount_out : Assets := [(unit_out, Int.fdiv numerator denominator)]
        if Assets.quantity amount_out = 0 then .ok (amount_out, 0)
        else
          let price_numerator : ℤ :=
            reserve_out * Assets.quantity asset * denominator * fee_modifier
              - numerator * reserve_in * 10000
          let price_denominator : ℤ :=
            reserve_out * Assets.quantity asset * denominator * 10000
          if price_denominator = 0 then .error .divByZero
          else .ok (amount_out, (price_numerator : ℚ) / (price_denominator : ℚ))
    else .error .invalidInput
  else .error .invalidInput

/-- The output unit selected by the constant-product branch on the input
side (line 87-92 of the source). -/
def cpUnitOut (s : CPPool) (u : String) : String :=
  if u = s.unit_a then s.unit_b else s.unit_a

/-- `reserve_in` selected by the constant-product branch on the input side. -/
def cpReserveIn (s : CPPool) (u : String) : ℤ :=
  if u = s.unit_a then s.reserve_a else s.reserve_b

/-- `reserve_out` selected by the constant-product branch on the input side. -/
def cpReserveOut (s : CPPool) (u : String) : ℤ :=
  if u = s.unit_a then s.reserve_b else s.reserve_a

/-- The integer `numerator` intermediate of the source (line 96). -/
def cpNum (s : CPPool) (u : String) (q : ℤ) : ℤ :=
  q * (10000 - s.volume_fee) * cpReserveOut s u

/-- The integer `denominator` intermediate of the source (line 97). -/
def cpDen (s : CPPool) (u : String) (q : ℤ) : ℤ :=
  q * (10000 - s.volume_fee) + cpReserveIn s u * 10000

/-- The integer `amount_out` of the source (line 98), `numerator // denominator`
with Python floor division (`Int.fdiv`). -/
def cpAmt (s : CPPool) (u : String) (q : ℤ) : ℤ :=
  Int.fdiv (cpNum s u q) (cpDen s u q)

lemma unit_single (u : String) (q : ℤ) : Assets.unit [(u, q)] = u := rfl

lemma quantity_single (u : String) (q : ℤ) : Assets.quantity [(u, q)] = q := rfl

/-- Bridge lemma: on a valid single-entry input whose denominator is nonzero,
the constant-product quote succeeds and returns exactly the intermediates
`cpUnitOut`/`cpAmt`, with the price impact of the source's formula when the
output amount is nonzero and `0` otherwise. -/
lemma cp_get_amount_out_eq (s : CPPool) (u : String) (q : ℤ)
    (hu : u = s.unit_a ∨ u = s.unit_b) (hden : cpDen s u q ≠ 0) :
    s.get_amount_out [(u, q)] =
      .ok ([(cpUnitOut s u, cpAmt s u q)],
        if cpAmt s u q = 0 then 0
        else ((cpReserveOut s u * q * cpDen s u q * (10000 - s.volume_fee)
                - cpNum s u q * cpReserveIn s u * 10000 : ℤ) : ℚ)
             / ((cpReserveOut s u * q * cpDen s u q * 10000 : ℤ) : ℚ)) := by
  have hlen : ([(u, q)] : Assets).length = 1 := rfl
  unfold CPPool.get_amount_out
  rw [if_pos hlen]
  rw [unit_single, quantity_single, if_pos hu]
  by_cases hz : cpAmt s u q = 0
  · have hz' : Assets.quantity [(cpUnitOut s u,
        Int.fdiv (cpNum s u q) (cpDen s u q))] = 0 := by
      rw [quantity_single]; exact hz
    simp only [cpNum, cpDen, cpReserveIn, cpReserveOut, cpUnitOut, cpAmt] at *
    rw [if_neg hden, if_pos hz', if_pos hz]
  · -- nonzero output: the price denominator is nonzero as well
    have hnum : cpNum s u q ≠ 0 := by
      intro h0
      exact hz (by rw [cpAmt, h0, Int.zero_fdiv])
    have hq : q ≠ 0 := by
      intro h0; exact hnum (by rw [cpNum, h0, zero_mul, zero_mul])
    have hrout : cpReserveOut s u ≠ 0 := by
      intro h0; exact hnum (by rw [cpNum, h0, mul_zero])
    have hpden : cpReserveOut s u * q * cpDen s u q * 10000 ≠ 0 := by
      exact mul_ne_zero (mul_ne_zero (mul_ne_zero hrout hq) hden) (by norm_num)
    have hz' : ¬ Assets.quantity [(cpUnitOut s u,
        Int.fdiv (cpNum s u q) (cpDen s u q))] = 0 := by
      rw [quantity_single]; exact hz
    simp only [cpNum, cpDen, cpReserveIn, cpReserveOut, cpUnitOut, cpAmt] at *
    rw [if_neg hden, if_neg hz', if_neg hpden, if_neg hz]

/-- Python `int()` applied to a float/rational: truncation toward zero. -/
def ratTrunc (q : ℚ) : ℤ := if 0 ≤ q then ⌊q⌋ else ⌈q⌉

/-- A stable-swap pool state: the fields of `AbstractPoolState` that
`AbstractStableSwapPoolState` reads. -/
structure SSPool where
  unit_a : String
  unit_b : String
  reserve_a : ℤ
  reserve_b : ℤ
  volume_fee : ℤ

/-- The `amp` property of `AbstractStableSwapPoolState` (line 115-117):
the constant 75. -/
def SSPool.amp (_s : SSPool) : ℚ := 75

/-- The `for i in range(256)` loop of `_get_D` (lines 130-136), with the
divisor of each Python division tested for zero as the interpreter does.
`ra`, `rb` are the pool reserves, `S` their sum, `Ann = amp * N_COINS**N_COINS`,
and the second argument is the current iterate `D`. -/
def getDLoop (ra rb S Ann : ℚ) : ℕ → ℚ → Except Err ℚ
  | 0, D => .ok D
  | fuel + 1, D =>
    if 2 ^ 2 * ra * rb = 0 then .error .divByZero
    else
      let D_P := D ^ 3 / (2 ^ 2 * ra * rb)
      if (Ann - 1) * D + (2 + 1) * D_P = 0 then .error .divByZero
      else
        let Dn := D * (Ann * S + D_P * 2) / ((Ann - 1) * D + (2 + 1) * D_P)
        if |Dn - D| < 1 then .ok Dn
        else getDLoop ra rb S Ann fuel Dn

/-- Embedding of `AbstractStableSwapPoolState._get_D` (lines 119-138):
`N_COINS = 2`, `Ann = amp * N_COINS**N_COINS`, `S = reserve_a + reserve_b`;
returns `0` for `S = 0` and otherwise runs the iteration from `D = S`. -/
def SSPool.get_D (s : SSPool) : Except Err ℚ :=
  let Ann : ℚ := s.amp * 2 ^ 2
  let S : ℚ := (s.reserve_a : ℚ) + (s.reserve_b : ℚ)
  if S = 0 then .ok 0
  else getDLoop (s.reserve_a : ℚ) (s.reserve_b : ℚ) S Ann 256 S

/-- The `for i in range(256)` loop of `_get_y` (lines 166-171), with the
divisor tested for zero as the Python interpreter does.  The second argument
is the current iterate `out` (initially `D`). -/
def getYLoop (b D c : ℚ) : ℕ → ℚ → Except Err ℚ
  | 0, out => .ok out
  | fuel + 1, out =>
    if 2 * out + b - D = 0 then .error .divByZero
    else
      let outn := (out ^ 2 + c) / (2 * out + b - D)
      if |outn - out| < 1 then .ok outn
      else getYLoop b D c fuel outn

/-- Embedding of `AbstractStableSwapPoolState._get_y` (lines 140-173) up to
and including the Newton loop, before the final `int(out)` truncation:
`D` is computed first (line 144), the three validation checks follow
(lines 146-152), then the fee-adjusted input is added to the input-side
reserve and the loop is run from `out = D`. -/
def SSPool.get_y_rat (s : SSPool) (in_assets : Assets) (out_unit : String) :
    Except Err ℚ :=
  let Ann : ℚ := s.amp * 2 ^ 2
  match s.get_D with
  | .error e => .error e
  | .ok D =>
    if 1 < in_assets.length then .error .invalidInput
    else if ¬ (Assets.unit in_assets = s.unit_a ∨ Assets.unit in_assets = s.unit_b) then
      .error .invalidInput
    else if ¬ (out_unit = s.unit_a ∨ out_unit = s.unit_b) then .error .invalidInput
    else
      let in_quantity : ℚ :=
        (Assets.quantity in_assets : ℚ) * (10000 - (s.volume_fee : ℚ)) / 10000
      let in_reserve : ℚ :=
        (if Assets.unit in_assets = s.unit_a then (s.reserve_a : ℚ)
         else (s.reserve_b : ℚ)) + in_quantity
      if 2 ^ 2 * Ann * in_reserve = 0 then .error .divByZero
      else
        let c := D ^ 3 / (2 ^ 2 * Ann * in_reserve)
        let b := in_reserve + D / Ann
        getYLoop b D c 256 D

/-- Embedding of `AbstractStableSwapPoolState._get_y` (lines 140-173):
the rational loop result truncated by Python `int()` and wrapped into a
single-entry bag keyed by `out_unit` (line 173). -/
def SSPool.get_y (s : SSPool) (in_assets : Assets) (out_unit : String) :
    Except Err Assets :=
  (s.get_y_rat in_assets out_unit).map (fun out => [(out_unit, ratTrunc out)])

/-- The output unit chosen by `AbstractStableSwapPoolState.get_amount_out`
(line 176). -/
def ssOutUnit (s : SSPool) (asset : Assets) : String :=
  if Assets.unit asset = s.unit_b then s.unit_a else s.unit_b

/-- The output-side reserve read by `AbstractStableSwapPoolState.get_amount_out`
(line 178). -/
def ssOutReserve (s : SSPool) (asset : Assets) : ℤ :=
  if ssOutUnit s asset = s.unit_b then s.reserve_b else s.reserve_a

/-- Embedding of `AbstractStableSwapPoolState.get_amount_out` (lines 175-180):
project the post-trade output reserve with `_get_y`, deliver
`out_reserve - projected`, and report price impact `0`. -/
def SSPool.get_amount_out (s : SSPool) (asset : Assets) : Except Err (Assets × ℚ) :=
  let out_unit := ssOutUnit s asset
  match s.get_y asset out_unit with
  | .error e => .error e
  | .ok out_asset =>
    let out_reserve := ssOutReserve s asset
    .ok ([(out_unit, out_reserve - Assets.quantity out_asset)], 0)

/-- Follows the claim's words (C2): the `_get_D` iteration written as a pure
rational recursion, `D_P = D^3 / (N_COINS^N_COINS * reserve_a * reserve_b)`,
`D = D * (Ann*S + D_P*N_COINS) / ((Ann-1)*D + (N_COINS+1)*D_P)` with
`Ann = 75 * 4`, stopping as soon as an iteration changes `D` by less than 1
and in any case after at most the given number of iterations. -/
def DIterSpec (ra rb S : ℚ) : ℕ → ℚ → ℚ
  | 0, D => D
  | fuel + 1, D =>
    let D_P := D ^ 3 / (2 ^ 2 * ra * rb)
    let Dn := D * ((75 * 4) * S + D_P * 2) / (((75 * 4) - 1) * D + (2 + 1) * D_P)
    if |Dn - D| < 1 then Dn
    else DIterSpec ra rb S fuel Dn

lemma getDLoop_succ (ra rb S Ann : ℚ) (fuel : ℕ) (D : ℚ) :
    getDLoop ra rb S Ann (fuel + 1) D =
      if 2 ^ 2 * ra * rb = 0 then .error .divByZero
      else
        let D_P := D ^ 3 / (2 ^ 2 * ra * rb)
        if (Ann - 1) * D + (2 + 1) * D_P = 0 then .error .divByZero
        else
          let Dn := D * (Ann * S + D_P * 2) / ((Ann - 1) * D + (2 + 1) * D_P)
          if |Dn - D| < 1 then .ok Dn
          else getDLoop ra rb S Ann fuel Dn := rfl

lemma getYLoop_succ (b D c : ℚ) (fuel : ℕ) (out : ℚ) :
    getYLoop b D c (fuel + 1) out =
      if 2 * out + b - D = 0 then .error .divByZero
      else
        let outn := (out ^ 2 + c) / (2 * out + b - D)
        if |outn - out| < 1 then .ok outn
        else getYLoop b D c fuel outn := rfl

lemma DIterSpec_succ (ra rb S : ℚ) (fuel : ℕ) (D : ℚ) :
    DIterSpec ra rb S (fuel + 1) D =
      let D_P := D ^ 3 / (2 ^ 2 * ra * rb)
      let Dn := D * ((75 * 4) * S + D_P * 2) / (((75 * 4) - 1) * D + (2 + 1) * D_P)
      if |Dn - D| < 1 then Dn
      else DIterSpec ra rb S fuel Dn := rfl

/-- Python `//` on integers with a positive divisor is the rational floor. -/
lemma fdiv_eq_floor (a b : ℤ) (hb : 0 < b) :
    Int.fdiv a b = ⌊(a : ℚ) / (b : ℚ)⌋ := by
  obtain ⟨d, rfl⟩ : ∃ d : ℕ, b = (d : ℤ) :=
    ⟨b.toNat, (Int.toNat_of_nonneg hb.le).symm⟩
  rw [Int.fdiv_eq_ediv _ (by exact_mod_cast Nat.zero_le d)]
  rw [show ((d : ℤ) : ℚ) = ((d : ℕ) : ℚ) by push_cast; ring]
  exact (Rat.floor_intCast_div_natCast a d).symm

/-- `ratTrunc` agrees with the floor on non-negative rationals. -/
lemma ratTrunc_of_nonneg {q : ℚ} (h : 0 ≤ q) : ratTrunc q = ⌊q⌋ := if_pos h

/-- `_get_D` returns `0` on a pool whose combined reserves vanish
(line 125-126). -/
lemma get_D_of_sum_zero (s : SSPool)
    (h : (s.reserve_a : ℚ) + (s.reserve_b : ℚ) = 0) : s.get_D = .ok 0 := by
  unfold SSPool.get_D
  rw [if_pos h]

/-- `_get_D` raises a division-by-zero when the combined reserves are nonzero
but the product of the reserves is zero: the very first loop iteration
divides `D ** 3` by `N_COINS ** N_COINS * reserve_a * reserve_b = 0`. -/
lemma get_D_of_prod_zero (s : SSPool)
    (hS : (s.reserve_a : ℚ) + (s.reserve_b : ℚ) ≠ 0)
    (hP : (s.reserve_a : ℚ) * (s.reserve_b : ℚ) = 0) :
    s.get_D = .error .divByZero := by
  unfold SSPool.get_D
  rw [if_neg hS, show (256 : ℕ) = 255 + 1 from rfl, getDLoop_succ,
    if_pos (by rw [mul_assoc, hP, mul_zero])]

/-- The `_get_y` Newton loop never reports an invalid-input error: its only
failure mode is a division by zero. -/
lemma getYLoop_ne_invalid (b D c : ℚ) :
    ∀ (fuel : ℕ) (out : ℚ), getYLoop b D c fuel out ≠ .error .invalidInput := by
  intro fuel
  induction fuel with
  | zero => intro out h; exact Except.noConfusion h
  | succ n ih =>
    intro out
    rw [getYLoop_succ]
    by_cases h0 : 2 * out + b - D = 0
    · rw [if_pos h0]; intro h
      exact Err.noConfusion (Except.error.inj h)
    · rw [if_neg h0]
      by_cases h1 : |(out ^ 2 + c) / (2 * out + b - D) - out| < 1
      · simp only [if_pos h1]; intro h; exact Except.noConfusion h
      · simp only [if_neg h1]; exact ih _

/-- On strictly positive data the `_get_D` loop runs the claim's iteration:
no division ever has a zero divisor, and the iterate stays positive. -/
lemma getDLoop_eq_spec {ra rb S : ℚ} (hra : 0 < ra) (hrb : 0 < rb) (hS : 0 < S) :
    ∀ (fuel : ℕ) (D : ℚ), 0 < D →
      getDLoop ra rb S (75 * 2 ^ 2) fuel D = .ok (DIterSpec ra rb S fuel D) := by
  intro fuel
  induction fuel with
  | zero => intro D _; rfl
  | succ n ih =>
    intro D hD
    have hdenP : (0 : ℚ) < 2 ^ 2 * ra * rb := by positivity
    have hDP : 0 < D ^ 3 / (2 ^ 2 * ra * rb) := by positivity
    have hden : (0 : ℚ) < (75 * 2 ^ 2 - 1) * D + (2 + 1) * (D ^ 3 / (2 ^ 2 * ra * rb)) := by
      nlinarith
    have hDn : 0 < D * ((75 * 2 ^ 2) * S + (D ^ 3 / (2 ^ 2 * ra * rb)) * 2)
        / ((75 * 2 ^ 2 - 1) * D + (2 + 1) * (D ^ 3 / (2 ^ 2 * ra * rb))) := by
      have hnum : 0 < D * ((75 * 2 ^ 2) * S + (D ^ 3 / (2 ^ 2 * ra * rb)) * 2) := by
        nlinarith
      positivity
    rw [getDLoop_succ, DIterSpec_succ]
    rw [if_neg hdenP.ne']
    simp only
    rw [if_neg hden.ne']
    have h754 : ((75 : ℚ) * 4) = 75 * 2 ^ 2 := by norm_num
    rw [h754]
    by_cases hstop : |D * ((75 * 2 ^ 2) * S + D ^ 3 / (2 ^ 2 * ra * rb) * 2) /
        ((75 * 2 ^ 2 - 1) * D + (2 + 1) * (D ^ 3 / (2 ^ 2 * ra * rb))) - D| < 1
    · rw [if_pos hstop, if_pos hstop]
    · rw [if_neg hstop, if_neg hstop]
      exact ih _ hDn

/-- Reduction of `_get_y` once the invariant `D` is known. -/
lemma get_y_rat_of_ok (s : SSPool) (ia : Assets) (ou : String) (D : ℚ)
    (hD : s.get_D = .ok D) :
    s.get_y_rat ia ou =
      (if 1 < ia.length then .error .invalidInput
       else if ¬ (Assets.unit ia = s.unit_a ∨ Assets.unit ia = s.unit_b) then
         .error .invalidInput
       else if ¬ (ou = s.unit_a ∨ ou = s.unit_b) then .error .invalidInput
       else
         let in_quantity : ℚ :=
           (Assets.quantity ia : ℚ) * (10000 - (s.volume_fee : ℚ)) / 10000
         let in_reserve : ℚ :=
           (if Assets.unit ia = s.unit_a then (s.reserve_a : ℚ)
            else (s.reserve_b : ℚ)) + in_quantity
         if 2 ^ 2 * (s.amp * 2 ^ 2) * in_reserve = 0 then .error .divByZero
         else
           let c := D ^ 3 / (2 ^ 2 * (s.amp * 2 ^ 2) * in_reserve)
           let b := in_reserve + D / (s.amp * 2 ^ 2)
           getYLoop b D c 256 D) := by
  unfold SSPool.get_y_rat
  rw [hD]

/-- Full reduction of `_get_y` to its Newton loop on a valid input, with the
fee-adjusted input-side reserve `irq`, the constant `c = cq` and the offset
`b = bq` supplied as hypotheses. -/
lemma get_y_rat_eval (s : SSPool) (ia : Assets) (ou : String) (D irq cq bq : ℚ)
    (hD : s.get_D = .ok D)
    (hlen : ¬ 1 < ia.length)
    (hin : Assets.unit ia = s.unit_a ∨ Assets.unit ia = s.unit_b)
    (hout : ou = s.unit_a ∨ ou = s.unit_b)
    (hir : (if Assets.unit ia = s.unit_a then (s.reserve_a : ℚ) else (s.reserve_b : ℚ))
        + (Assets.quantity ia : ℚ) * (10000 - (s.volume_fee : ℚ)) / 10000 = irq)
    (hirne : ¬ 2 ^ 2 * (s.amp * 2 ^ 2) * irq = 0)
    (hc : D ^ 3 / (2 ^ 2 * (s.amp * 2 ^ 2) * irq) = cq)
    (hb : irq + D / (s.amp * 2 ^ 2) = bq) :
    s.get_y_rat ia ou = getYLoop bq D cq 256 D := by
  rw [get_y_rat_of_ok _ _ _ _ hD]
  rw [if_neg hlen, if_neg (not_not_intro hin), if_neg (not_not_intro hout)]
  simp only []
  rw [hir, if_neg hirne, hc, hb]

/-- `_get_D` on the balanced pool with reserves `(1, 1)`: the first iteration
is already a fixed point, so the loop stops at `D = 2`. -/
lemma get_D_one_one : SSPool.get_D ⟨"a", "b", 1, 1, 0⟩ = .ok 2 := by
  unfold SSPool.get_D
  norm_num [SSPool.amp]
  rw [show (256 : ℕ) = 255 + 1 from rfl, getDLoop_succ]
  norm_num

/-- `_get_D` on the balanced pool with reserves `(5, 5)`: the first iteration
is already a fixed point, so the loop stops at `D = 10`. -/
lemma get_D_five_five : SSPool.get_D ⟨"a", "b", 5, 5, 30⟩ = .ok 10 := by
  unfold SSPool.get_D
  norm_num [SSPool.amp]
  rw [show (256 : ℕ) = 255 + 1 from rfl, getDLoop_succ]
  norm_num

/-- `get_amount_out` of the stable-swap pool reports an invalid input exactly
when `_get_y`'s rational stage does: both the truncation map and the final
reserve subtraction preserve the error. -/
lemma ss_amount_invalid_iff (s : SSPool) (asset : Assets) :
    s.get_amount_out asset = .error .invalidInput ↔
      s.get_y_rat asset (ssOutUnit s asset) = .error .invalidInput := by
  unfold SSPool.get_amount_out SSPool.get_y
  simp only []
  cases hy : s.get_y_rat asset (ssOutUnit s asset) with
  | error e =>
    cases e with
    | invalidInput => simp [Except.map]
    | divByZero => simp [Except.map]
  | ok out => simp [Except.map]

/-- The stable-swap output unit (line 176) always belongs to the pool pair. -/
lemma ssOutUnit_mem (s : SSPool) (asset : Assets) :
    ssOutUnit s asset = s.unit_a ∨ ssOutUnit s asset = s.unit_b := by
  unfold ssOutUnit
  by_cases h : Assets.unit asset = s.unit_b
  · rw [if_pos h]; exact Or.inl rfl
  · rw [if_neg h]; exact Or.inr rfl

/-- Under a successfully computed invariant, `_get_y`'s rational stage raises
an invalid input exactly when the bag or one of the units is invalid. -/
lemma get_y_rat_invalid_iff (s : SSPool) (ia : Assets) (ou : String) (D : ℚ)
    (hD : s.get_D = .ok D) :
    s.get_y_rat ia ou = .error .invalidInput ↔
      (1 < ia.length ∨ ¬ (Assets.unit ia = s.unit_a ∨ Assets.unit ia = s.unit_b)
        ∨ ¬ (ou = s.unit_a ∨ ou = s.unit_b)) := by
  rw [get_y_rat_of_ok _ _ _ _ hD]
  by_cases h1 : 1 < ia.length
  · simp [h1]
  rw [if_neg h1]
  by_cases h2 : Assets.unit ia = s.unit_a ∨ Assets.unit ia = s.unit_b
  · rw [if_neg (not_not_intro h2)]
    by_cases h3 : ou = s.unit_a ∨ ou = s.unit_b
    · rw [if_neg (not_not_intro h3)]
      simp only []
      constructor
      · intro h
        by_cases h4 : 2 ^ 2 * (s.amp * 2 ^ 2) *
            ((if Assets.unit ia = s.unit_a then (s.reserve_a : ℚ) else (s.reserve_b : ℚ))
              + (Assets.quantity ia : ℚ) * (10000 - (s.volume_fee : ℚ)) / 10000) = 0
        · rw [if_pos h4] at h
          exact absurd (Except.error.inj h) (by intro hh; exact Err.noConfusion hh)
        · rw [if_neg h4] at h
          exact absurd h (getYLoop_ne_invalid _ _ _ _ _)
      · intro h
        rcases h with h | h | h
        · exact absurd h h1
        · exact absurd h2 h
        · exact absurd h3 h
    · rw [if_pos h3]
      simp [h1, h2, h3]
  · rw [if_pos h2]
    simp [h1, h2]

/-- The constant-product quote raises an invalid input exactly when the bag
has more than one entry or its unit is outside the pool pair (given the data
model invariant that the pool's unit identifiers are non-empty, so that the
unit read off an empty bag never coincides with one of them). -/
lemma cp_invalid_iff (s : CPPool) (asset : Assets)
    (ha : s.unit_a ≠ "") (hb : s.unit_b ≠ "") :
    s.get_amount_out asset = .error .invalidInput ↔
      (1 < asset.length
        ∨ ¬ (Assets.unit asset = s.unit_a ∨ Assets.unit asset = s.unit_b)) := by
  unfold CPPool.get_amount_out
  by_cases hlen : asset.length = 1
  · rw [if_pos hlen]
    have hnot1 : ¬ 1 < asset.length := by omega
    by_cases hu : Assets.unit asset = s.unit_a ∨ Assets.unit asset = s.unit_b
    · rw [if_pos hu]
      simp only []
      apply iff_of_false _ (by simp [hnot1, hu])
      by_cases hden : Assets.quantity asset * (10000 - s.volume_fee)
          + (if Assets.unit asset = s.unit_a then s.reserve_a else s.reserve_b) * 10000 = 0
      · rw [if_pos hden]; simp
      · rw [if_neg hden]
        by_cases hz : Assets.quantity [((if Assets.unit asset = s.unit_a then s.unit_b
              else s.unit_a),
            Int.fdiv (Assets.quantity asset * (10000 - s.volume_fee) *
                (if Assets.unit asset = s.unit_a then s.reserve_b else s.reserve_a))
              (Assets.quantity asset * (10000 - s.volume_fee) +
                (if Assets.unit asset = s.unit_a then s.reserve_a else s.reserve_b) *
                  10000))] = 0
        · rw [if_pos hz]; simp
        · rw [if_neg hz]
          by_cases hpd : (if Assets.unit asset = s.unit_a then s.reserve_b else s.reserve_a)
              * Assets.quantity asset *
              (Assets.quantity asset * (10000 - s.volume_fee) +
                (if Assets.unit asset = s.unit_a then s.reserve_a else s.reserve_b) * 10000)
              * 10000 = 0
          · rw [if_pos hpd]; simp
          · rw [if_neg hpd]; simp
    · rw [if_neg hu]
      exact iff_of_true rfl (Or.inr hu)
  · rw [if_neg hlen]
    apply iff_of_true rfl
    rcases Nat.lt_or_ge 1 asset.length with h | h
    · exact Or.inl h
    · have h0 : asset.length = 0 := by omega
      have hnil : asset = [] := List.length_eq_zero.mp h0
      apply Or.inr
      rw [hnil]
      intro hcon
      rcases hcon with h | h
      · exact ha (by simpa [Assets.unit] using h.symm)
      · exact hb (by simpa [Assets.unit] using h.symm)

/-- C1 (amended): for every constant-product pool state and valid single-entry
input bag whose unit is `unit_a` or `unit_b`, with non-negative quantity and
reserves, `volume_fee < 10000`, and a nonzero integer denominator
`input_quantity * (10000 - volume_fee) + reserve_in * 10000`, `get_amount_out`
selects the reserves by the input side and returns an output bag of the
opposite unit whose quantity is the rational floor of
`numerator / denominator` — floor division, never round-to-nearest or up. -/
theorem c1_constant_product_floor_output (s : CPPool) (u : String) (q : ℤ)
    (hu : u = s.unit_a ∨ u = s.unit_b)
    (hq : 0 ≤ q) (hra : 0 ≤ s.reserve_a) (hrb : 0 ≤ s.reserve_b)
    (hfee : s.volume_fee < 10000)
    (hden : cpDen s u q ≠ 0) :
    ∃ impact : ℚ, s.get_amount_out [(u, q)] =
      .ok ([(cpUnitOut s u,
        ⌊(cpNum s u q : ℚ) / (cpDen s u q : ℚ)⌋)], impact) := by
  have hf : (0:ℤ) < 10000 - s.volume_fee := by omega
  have hrin : 0 ≤ cpReserveIn s u := by
    unfold cpReserveIn; split <;> assumption
  have hden0 : 0 ≤ cpDen s u q := by
    unfold cpDen
    have := mul_nonneg hq hf.le
    have := mul_nonneg hrin (by norm_num : (0:ℤ) ≤ 10000)
    omega
  have hdpos : 0 < cpDen s u q := lt_of_le_of_ne hden0 (Ne.symm hden)
  have hfl : cpAmt s u q = ⌊(cpNum s u q : ℚ) / (cpDen s u q : ℚ)⌋ :=
    fdiv_eq_floor _ _ hdpos
  have h := cp_get_amount_out_eq s u q hu hden
  rw [hfl] at h
  exact ⟨_, h⟩

/-- C5: for the constant-product curve with positive reserves,
`0 <= volume_fee < 10000`, a valid input unit and positive quantities
`q1 <= q2`, both quotes succeed, each output amount is strictly below
`reserve_out`, and the output amount is non-decreasing in the input
quantity. -/
theorem c5_bounded_monotone (s : CPPool) (u : String) (q₁ q₂ : ℤ)
    (hu : u = s.unit_a ∨ u = s.unit_b)
    (hra : 0 < s.reserve_a) (hrb : 0 < s.reserve_b)
    (hfee0 : 0 ≤ s.volume_fee) (hfee1 : s.volume_fee < 10000)
    (hq1 : 0 < q₁) (hq12 : q₁ ≤ q₂) :
    ∃ a₁ i₁ a₂ i₂,
      s.get_amount_out [(u, q₁)] = .ok ([(cpUnitOut s u, a₁)], i₁) ∧
      s.get_amount_out [(u, q₂)] = .ok ([(cpUnitOut s u, a₂)], i₂) ∧
      a₁ ≤ a₂ ∧ a₁ < cpReserveOut s u ∧ a₂ < cpReserveOut s u := by
  have hf : (0:ℤ) < 10000 - s.volume_fee := by omega
  have hrin : 0 < cpReserveIn s u := by unfold cpReserveIn; split <;> assumption
  have hrout : 0 < cpReserveOut s u := by unfold cpReserveOut; split <;> assumption
  have hq2 : 0 < q₂ := lt_of_lt_of_le hq1 hq12
  have hden1 : 0 < cpDen s u q₁ := by unfold cpDen; nlinarith
  have hden2 : 0 < cpDen s u q₂ := by unfold cpDen; nlinarith
  have hf' : (0:ℚ) < 10000 - (s.volume_fee:ℚ) := by exact_mod_cast hf
  have hrin' : (0:ℚ) < (cpReserveIn s u : ℚ) := by exact_mod_cast hrin
  have hrout' : (0:ℚ) < (cpReserveOut s u : ℚ) := by exact_mod_cast hrout
  have hq1' : (0:ℚ) < (q₁:ℚ) := by exact_mod_cast hq1
  have hq2' : (0:ℚ) < (q₂:ℚ) := by exact_mod_cast hq2
  have hq12' : (q₁:ℚ) ≤ (q₂:ℚ) := by exact_mod_cast hq12
  have hden1' : (0:ℚ) < (cpDen s u q₁ : ℚ) := by exact_mod_cast hden1
  have hden2' : (0:ℚ) < (cpDen s u q₂ : ℚ) := by exact_mod_cast hden2
  have hbound : ∀ q : ℤ, 0 < q → 0 < cpDen s u q → cpAmt s u q < cpReserveOut s u := by
    intro q hq hden
    have hden' : (0:ℚ) < (cpDen s u q : ℚ) := by exact_mod_cast hden
    have hq' : (0:ℚ) < (q:ℚ) := by exact_mod_cast hq
    rw [cpAmt, fdiv_eq_floor _ _ hden, Int.floor_lt]
    rw [div_lt_iff₀ hden']
    unfold cpNum cpDen
    push_cast
    nlinarith
  refine ⟨cpAmt s u q₁, _, cpAmt s u q₂, _,
    cp_get_amount_out_eq s u q₁ hu hden1.ne',
    cp_get_amount_out_eq s u q₂ hu hden2.ne', ?_,
    hbound q₁ hq1 hden1, hbound q₂ hq2 hden2⟩
  rw [cpAmt, cpAmt, fdiv_eq_floor _ _ hden1, fdiv_eq_floor _ _ hden2]
  apply Int.floor_mono
  rw [div_le_div_iff₀ hden1' hden2']
  unfold cpNum cpDen
  push_cast
  nlinarith [mul_nonneg (mul_nonneg (mul_nonneg (sub_nonneg.mpr hq12') hf'.le)
    hrout'.le) hrin'.le]

/-- C6: for the constant-product curve, whenever the computed `amount_out` is
nonzero, the returned price impact is exactly
`(reserve_out * input_quantity * denominator * fee_modifier -
numerator * reserve_in * 10000) / (reserve_out * input_quantity * denominator
* 10000)` evaluated on the exact integer intermediates, only this final ratio
being taken in the rational (float) field. -/
theorem c6_price_impact_formula (s : CPPool) (u : String) (q : ℤ)
    (hu : u = s.unit_a ∨ u = s.unit_b) (hnz : cpAmt s u q ≠ 0) :
    s.get_amount_out [(u, q)] = .ok ([(cpUnitOut s u, cpAmt s u q)],
      ((cpReserveOut s u * q * cpDen s u q * (10000 - s.volume_fee)
        - cpNum s u q * cpReserveIn s u * 10000 : ℤ) : ℚ)
      / ((cpReserveOut s u * q * cpDen s u q * 10000 : ℤ) : ℚ)) := by
  have hden : cpDen s u q ≠ 0 := by
    intro h0; apply hnz; rw [cpAmt, h0, Int.fdiv_zero]
  rw [cp_get_amount_out_eq s u q hu hden, if_neg hnz]

/-- C7: for the constant-product curve, when the floored output is zero (and
the denominator is nonzero), `get_amount_out` returns exactly the zero-quantity
output bag together with price impact `0`. -/
theorem c7_zero_output_short_circuit (s : CPPool) (u : String) (q : ℤ)
    (hu : u = s.unit_a ∨ u = s.unit_b)
    (hden : cpDen s u q ≠ 0) (hz : cpAmt s u q = 0) :
    s.get_amount_out [(u, q)] = .ok ([(cpUnitOut s u, 0)], 0) := by
  rw [cp_get_amount_out_eq s u q hu hden, hz]
  norm_num

/-- C9: for the constant-product curve with positive reserves,
`0 <= volume_fee < 10000`, a valid input with positive quantity and nonzero
output, the returned price impact equals
`input_quantity * fee_modifier^2 / (denominator * 10000)` exactly and lies in
the half-open interval `[0, 1)`. -/
theorem c9_price_impact_range (s : CPPool) (u : String) (q : ℤ)
    (hu : u = s.unit_a ∨ u = s.unit_b)
    (hra : 0 < s.reserve_a) (hrb : 0 < s.reserve_b)
    (hfee0 : 0 ≤ s.volume_fee) (hfee1 : s.volume_fee < 10000)
    (hq : 0 < q) (hnz : cpAmt s u q ≠ 0) :
    s.get_amount_out [(u, q)] = .ok ([(cpUnitOut s u, cpAmt s u q)],
      (q : ℚ) * (10000 - (s.volume_fee : ℚ)) ^ 2 / ((cpDen s u q : ℚ) * 10000))
    ∧ 0 ≤ (q : ℚ) * (10000 - (s.volume_fee : ℚ)) ^ 2 / ((cpDen s u q : ℚ) * 10000)
    ∧ (q : ℚ) * (10000 - (s.volume_fee : ℚ)) ^ 2 / ((cpDen s u q : ℚ) * 10000) < 1 := by
  have hf : (0:ℤ) < 10000 - s.volume_fee := by omega
  have hrin : 0 < cpReserveIn s u := by unfold cpReserveIn; split <;> assumption
  have hrout : 0 < cpReserveOut s u := by unfold cpReserveOut; split <;> assumption
  have hden : 0 < cpDen s u q := by unfold cpDen; nlinarith
  have hf' : (0:ℚ) < 10000 - (s.volume_fee:ℚ) := by exact_mod_cast hf
  have hrin' : (0:ℚ) < (cpReserveIn s u : ℚ) := by exact_mod_cast hrin
  have hrout' : (0:ℚ) < (cpReserveOut s u : ℚ) := by exact_mod_cast hrout
  have hq' : (0:ℚ) < (q:ℚ) := by exact_mod_cast hq
  have hden' : (0:ℚ) < (cpDen s u q : ℚ) := by exact_mod_cast hden
  have h := cp_get_amount_out_eq s u q hu hden.ne'
  rw [if_neg hnz] at h
  have heq : ((cpReserveOut s u * q * cpDen s u q * (10000 - s.volume_fee)
        - cpNum s u q * cpReserveIn s u * 10000 : ℤ) : ℚ)
      / ((cpReserveOut s u * q * cpDen s u q * 10000 : ℤ) : ℚ)
      = (q : ℚ) * (10000 - (s.volume_fee : ℚ)) ^ 2 / ((cpDen s u q : ℚ) * 10000) := by
    rw [div_eq_div_iff (by push_cast; positivity) (by positivity)]
    simp only [cpNum, cpDen, cpReserveIn, cpReserveOut]
    push_cast
    ring
  rw [heq] at h
  refine ⟨h, by positivity, ?_⟩
  rw [div_lt_one (by positivity)]
  have hfle : (10000 - (s.volume_fee:ℚ)) ≤ 10000 := by
    have : (0:ℚ) ≤ (s.volume_fee:ℚ) := by exact_mod_cast hfee0
    linarith
  have hdexp : (cpDen s u q : ℚ) = (q:ℚ) * (10000 - (s.volume_fee:ℚ))
      + (cpReserveIn s u : ℚ) * 10000 := by
    rw [cpDen]; push_cast; ring
  nlinarith

/-- C4 (amended): the constant-product `get_amount_out` raises `InvalidInput`
exactly when the input bag has more than one entry or its unit is neither
`unit_a` nor `unit_b` (given the data-model invariant of non-empty unit
identifiers); the stable-swap `get_amount_out` satisfies the same equivalence
on every state whose `_get_D` completes without raising. -/
theorem c4_invalid_input_iff :
    (∀ (s : CPPool) (asset : Assets), s.unit_a ≠ "" → s.unit_b ≠ "" →
      (s.get_amount_out asset = .error .invalidInput ↔
        (1 < asset.length
          ∨ ¬ (Assets.unit asset = s.unit_a ∨ Assets.unit asset = s.unit_b)))) ∧
    (∀ (s : SSPool) (asset : Assets) (D : ℚ), s.get_D = .ok D →
      (s.get_amount_out asset = .error .invalidInput ↔
        (1 < asset.length
          ∨ ¬ (Assets.unit asset = s.unit_a ∨ Assets.unit asset = s.unit_b)))) := by
  constructor
  · intro s asset ha hb
    exact cp_invalid_iff s asset ha hb
  · intro s asset D hD
    rw [ss_amount_invalid_iff, get_y_rat_invalid_iff s asset _ D hD]
    have h3 := ssOutUnit_mem s asset
    constructor
    · rintro (h | h | h)
      · exact Or.inl h
      · exact Or.inr h
      · exact absurd h3 h
    · rintro (h | h)
      · exact Or.inl h
      · exact Or.inr (Or.inl h)

/-- C2 (amended): `_get_D` returns `0` whenever `reserve_a + reserve_b = 0`;
and whenever both reserves are positive it returns (without error) exactly the
claimed iteration `DIterSpec`: starting from `D = S = reserve_a + reserve_b`,
iterating `D_P = D^3 / (N_COINS^N_COINS * reserve_a * reserve_b)`,
`D = D * (Ann*S + D_P*N_COINS) / ((Ann-1)*D + (N_COINS+1)*D_P)` with
`Ann = 75 * 4`, stopping as soon as an iteration changes `D` by less than 1
and in any case after 256 iterations, returning the last value. -/
theorem c2_get_D_iteration (s : SSPool) :
    ((s.reserve_a : ℚ) + (s.reserve_b : ℚ) = 0 → s.get_D = .ok 0) ∧
    (0 < s.reserve_a → 0 < s.reserve_b →
      s.get_D = .ok (DIterSpec (s.reserve_a : ℚ) (s.reserve_b : ℚ)
        ((s.reserve_a : ℚ) + (s.reserve_b : ℚ)) 256
        ((s.reserve_a : ℚ) + (s.reserve_b : ℚ)))) := by
  constructor
  · exact get_D_of_sum_zero s
  · intro hra hrb
    have hra' : (0:ℚ) < (s.reserve_a : ℚ) := by exact_mod_cast hra
    have hrb' : (0:ℚ) < (s.reserve_b : ℚ) := by exact_mod_cast hrb
    have hS : (0:ℚ) < (s.reserve_a : ℚ) + (s.reserve_b : ℚ) := by linarith
    unfold SSPool.get_D
    simp only [SSPool.amp]
    rw [if_neg hS.ne']
    exact getDLoop_eq_spec hra' hrb' hS 256 _ hS

/-- C3: whenever the rational stage of `_get_y` (for the output unit chosen by
`get_amount_out`) succeeds with value `out`, the stable-swap `get_amount_out`
returns the pair whose first component is the single-entry bag of the opposite
unit with quantity `current reserve of that unit - _get_y's truncated result`
and whose second component is exactly `0`; and the `int()` truncation that
`_get_y` applies is the floor whenever the projected reserve is non-negative. -/
theorem c3_stable_combine (s : SSPool) (asset : Assets) (out : ℚ)
    (hy : s.get_y_rat asset (ssOutUnit s asset) = .ok out) :
    s.get_amount_out asset =
      .ok ([(ssOutUnit s asset, ssOutReserve s asset - ratTrunc out)], 0)
    ∧ (0 ≤ out → ratTrunc out = ⌊out⌋) := by
  constructor
  · unfold SSPool.get_amount_out SSPool.get_y
    simp only []
    rw [hy]
    simp [Except.map, Assets.quantity]
  · exact fun h => ratTrunc_of_nonneg h

/-- C10: on every stable-swap state with exactly one zero reserve `_get_D`
raises a division-by-zero, and — because `_get_y` computes `D` before its
input validation — every `_get_y` call against such a state raises that
division-by-zero, for every input bag (valid or not) and output unit. -/
theorem c10_one_sided_zero_reserves (s : SSPool)
    (h : (s.reserve_a = 0 ∧ s.reserve_b ≠ 0) ∨ (s.reserve_a ≠ 0 ∧ s.reserve_b = 0)) :
    s.get_D = .error .divByZero ∧
    ∀ (ia : Assets) (ou : String), s.get_y ia ou = .error .divByZero := by
  have hS : (s.reserve_a : ℚ) + (s.reserve_b : ℚ) ≠ 0 := by
    rcases h with ⟨h1, h2⟩ | ⟨h1, h2⟩
    · rw [h1]; simpa using (Int.cast_ne_zero (α := ℚ)).mpr h2
    · rw [h2]; simpa using (Int.cast_ne_zero (α := ℚ)).mpr h1
  have hP : (s.reserve_a : ℚ) * (s.reserve_b : ℚ) = 0 := by
    rcases h with ⟨h1, _⟩ | ⟨_, h1⟩ <;> rw [h1] <;> simp
  have hD := get_D_of_prod_zero s hS hP
  refine ⟨hD, ?_⟩
  intro ia ou
  unfold SSPool.get_y SSPool.get_y_rat
  rw [hD]
  simp [Except.map]

/-- C8 (amended): on the pool with `reserve_a = reserve_b = 0`, `_get_D`
returns `0`, and every `_get_y` call with valid units and a positive input
quantity (with `volume_fee < 10000`) completes without division-by-zero,
returning the zero output bag. -/
theorem c8_degenerate_pool (s : SSPool) (ha : s.reserve_a = 0) (hb : s.reserve_b = 0) :
    s.get_D = .ok 0 ∧
    ∀ (u : String) (q : ℤ) (ou : String),
      (u = s.unit_a ∨ u = s.unit_b) → (ou = s.unit_a ∨ ou = s.unit_b) →
      0 < q → s.volume_fee < 10000 →
      s.get_y [(u, q)] ou = .ok [(ou, 0)] := by
  have hD : s.get_D = .ok 0 := get_D_of_sum_zero s (by rw [ha, hb]; norm_num)
  refine ⟨hD, ?_⟩
  intro u q ou hu hou hq hfee
  have hq' : (0:ℚ) < (q:ℚ) := by exact_mod_cast hq
  have hf' : (0:ℚ) < 10000 - (s.volume_fee:ℚ) := by
    have : (s.volume_fee:ℚ) < 10000 := by exact_mod_cast hfee
    linarith
  have hirpos : (0:ℚ) < (q:ℚ) * (10000 - (s.volume_fee:ℚ)) / 10000 := by positivity
  have hirq : (if Assets.unit [(u,q)] = s.unit_a then (s.reserve_a : ℚ)
        else (s.reserve_b : ℚ))
      + (Assets.quantity [(u,q)] : ℚ) * (10000 - (s.volume_fee : ℚ)) / 10000
      = (q:ℚ) * (10000 - (s.volume_fee:ℚ)) / 10000 := by
    rw [unit_single, quantity_single, ha, hb]
    split <;> norm_num
  have hamp : s.amp = 75 := rfl
  have hirne : ¬ 2 ^ 2 * (s.amp * 2 ^ 2) *
      ((q:ℚ) * (10000 - (s.volume_fee:ℚ)) / 10000) = 0 := by
    rw [hamp]
    positivity
  have hloop := get_y_rat_eval s [(u,q)] ou 0
      ((q:ℚ) * (10000 - (s.volume_fee:ℚ)) / 10000) 0
      ((q:ℚ) * (10000 - (s.volume_fee:ℚ)) / 10000)
      hD (by norm_num) (by rw [unit_single]; exact hu) hou hirq hirne
      (by simp) (by simp)
  unfold SSPool.get_y
  rw [hloop]
  rw [show (256 : ℕ) = 255 + 1 from rfl, getYLoop_succ]
  rw [if_neg (by simpa using hirpos.ne')]
  simp only []
  rw [show ((0:ℚ) ^ 2 + 0) / (2 * 0 + (q:ℚ) * (10000 - (s.volume_fee:ℚ)) / 10000 - 0)
      = 0 by simp]
  rw [if_pos (by norm_num)]
  simp [Except.map, ratTrunc]

/-- The rational stage of `_get_y` on the balanced `(1, 1)` zero-fee pool
with input quantity `0`: the Newton loop stops after one iteration at
`601/451`. -/
lemma get_y_rat_one_one :
    SSPool.get_y_rat ⟨"a", "b", 1, 1, 0⟩ [("a", 0)] "b" = .ok (601/451) := by
  rw [get_y_rat_eval ⟨"a", "b", 1, 1, 0⟩ [("a", 0)] "b" 2 1 (1/150) (151/150)
    get_D_one_one
    (by norm_num) (by simp [Assets.unit]) (by simp)
    (by norm_num [Assets.unit, Assets.quantity])
    (by norm_num [SSPool.amp]) (by norm_num [SSPool.amp]) (by norm_num [SSPool.amp])]
  rw [show (256 : ℕ) = 255 + 1 from rfl, getYLoop_succ]
  rw [if_neg (by norm_num)]
  simp only []
  rw [show ((2:ℚ) ^ 2 + 1/150) / (2 * 2 + 151/150 - 2) = 601/451 by norm_num]
  rw [if_pos (by rw [abs_sub_lt_iff]; constructor <;> norm_num)]

-- counterexamples
/-- C1 counterexample to the unamended claim: on the pool with
`reserve_a = 0` and the valid single-entry input `{unit_a: 0}` the
denominator is `0` and `get_amount_out` raises a `ZeroDivisionError`
instead of returning the claimed floor value. -/
theorem c1_counterexample :
    CPPool.get_amount_out ⟨"a", "b", 0, 5, 30⟩ [("a", 0)] = .error .divByZero := by
  rfl

/-- C2 counterexample to the unamended claim: with `reserve_a = 1`,
`reserve_b = 0` the sum is nonzero, and instead of iterating to a value
`_get_D` raises a `ZeroDivisionError` on the first iteration. -/
theorem c2_counterexample : SSPool.get_D ⟨"a", "b", 1, 0, 30⟩ = .error .divByZero := by
  apply get_D_of_prod_zero <;> norm_num

/-- C4 counterexample to the unamended claim: on the stable-swap pool
`(1, 0)` an input bag with two entries makes `get_amount_out` fail with the
division-by-zero raised inside `_get_D` — not with `InvalidInput` — because
`_get_y` computes `D` before validating its input. -/
theorem c4_counterexample :
    SSPool.get_amount_out ⟨"a", "b", 1, 0, 30⟩ [("a", 1), ("b", 1)] =
      .error .divByZero := by
  have hD : SSPool.get_D ⟨"a", "b", 1, 0, 30⟩ = .error .divByZero := by
    apply get_D_of_prod_zero <;> norm_num
  unfold SSPool.get_amount_out SSPool.get_y SSPool.get_y_rat
  rw [hD]
  simp [Except.map]

/-- C8 counterexample to the unamended claim: against the all-zero pool a
valid single-entry input bag of quantity `0` makes `_get_y` raise a
division-by-zero (the fee-adjusted `in_reserve` is `0` in the divisor of
`c`). -/
theorem c8_counterexample :
    SSPool.get_y ⟨"a", "b", 0, 0, 30⟩ [("a", 0)] "b" = .error .divByZero := by
  have hD : SSPool.get_D ⟨"a", "b", 0, 0, 30⟩ = .ok 0 := by
    apply get_D_of_sum_zero; norm_num
  unfold SSPool.get_y SSPool.get_y_rat
  rw [hD]
  norm_num [Assets.unit, Assets.quantity, SSPool.amp, Except.map]

-- witnesses
/-- C1 witness: the amended theorem instantiated on a concrete pool. -/
theorem c1_witness :
    cpDen ⟨"a", "b", 100, 200, 30⟩ "a" 10 ≠ 0 ∧
    (∃ impact : ℚ, CPPool.get_amount_out ⟨"a", "b", 100, 200, 30⟩ [("a", 10)] =
      .ok ([(cpUnitOut ⟨"a", "b", 100, 200, 30⟩ "a",
        ⌊(cpNum ⟨"a", "b", 100, 200, 30⟩ "a" 10 : ℚ) /
          (cpDen ⟨"a", "b", 100, 200, 30⟩ "a" 10 : ℚ)⌋)], impact)) :=
  ⟨by decide, c1_constant_product_floor_output _ "a" 10 (Or.inl rfl) (by decide) (by decide) (by decide)
    (by decide) (by decide)⟩

/-- C2 witness: the amended theorem instantiated on the balanced pool `(1, 1)`. -/
theorem c2_witness :
    (0 : ℤ) < 1 ∧
    SSPool.get_D ⟨"a", "b", 1, 1, 30⟩ =
      .ok (DIterSpec ((1:ℤ):ℚ) ((1:ℤ):ℚ) (((1:ℤ):ℚ) + ((1:ℤ):ℚ)) 256
        (((1:ℤ):ℚ) + ((1:ℤ):ℚ))) :=
  ⟨by decide, (c2_get_D_iteration ⟨"a", "b", 1, 1, 30⟩).2 (by decide) (by decide)⟩

/-- C3 witness: on the balanced pool `(1, 1)` with zero fee and input
`{unit_a: 0}`, the Newton loop stops at `601/451` and `get_amount_out`
delivers `1 - 1 = 0` with price impact `0`. -/
theorem c3_witness :
    SSPool.get_y_rat ⟨"a", "b", 1, 1, 0⟩ [("a", 0)] "b" = .ok (601/451) ∧
    (SSPool.get_amount_out ⟨"a", "b", 1, 1, 0⟩ [("a", 0)] =
      .ok ([("b", (1 : ℤ) - ratTrunc (601/451))], 0)
     ∧ (0 ≤ (601/451 : ℚ) → ratTrunc (601/451) = ⌊(601/451 : ℚ)⌋)) :=
  ⟨get_y_rat_one_one, c3_stable_combine ⟨"a", "b", 1, 1, 0⟩ [("a", 0)] (601/451) get_y_rat_one_one⟩

/-- C4 witness: the amended theorem instantiated on concrete pools with a
two-entry input bag, which both variants reject as `InvalidInput`. -/
theorem c4_witness :
    ("a" : String) ≠ "" ∧ ("b" : String) ≠ "" ∧
    SSPool.get_D ⟨"a", "b", 5, 5, 30⟩ = .ok 10 ∧
    (CPPool.get_amount_out ⟨"a", "b", 5, 5, 30⟩ [("a", 1), ("b", 1)] =
        .error .invalidInput ↔
      (1 < ([("a", (1:ℤ)), ("b", 1)] : Assets).length
        ∨ ¬ (Assets.unit [("a", (1:ℤ)), ("b", 1)] = "a"
          ∨ Assets.unit [("a", (1:ℤ)), ("b", 1)] = "b"))) ∧
    (SSPool.get_amount_out ⟨"a", "b", 5, 5, 30⟩ [("a", 1), ("b", 1)] =
        .error .invalidInput ↔
      (1 < ([("a", (1:ℤ)), ("b", 1)] : Assets).length
        ∨ ¬ (Assets.unit [("a", (1:ℤ)), ("b", 1)] = "a"
          ∨ Assets.unit [("a", (1:ℤ)), ("b", 1)] = "b"))) :=
  ⟨by decide, by decide, get_D_five_five,
    c4_invalid_input_iff.1 ⟨"a", "b", 5, 5, 30⟩ [("a", 1), ("b", 1)] (by decide) (by decide),
    c4_invalid_input_iff.2 ⟨"a", "b", 5, 5, 30⟩ [("a", 1), ("b", 1)] 10 get_D_five_five⟩

/-- C5 witness: the theorem instantiated on a concrete pool. -/
theorem c5_witness :
    (0 : ℤ) < 1 ∧ (1 : ℤ) ≤ 2 ∧
    (∃ a₁ i₁ a₂ i₂,
      CPPool.get_amount_out ⟨"a", "b", 10, 10, 30⟩ [("a", 1)] =
        .ok ([(cpUnitOut ⟨"a", "b", 10, 10, 30⟩ "a", a₁)], i₁) ∧
      CPPool.get_amount_out ⟨"a", "b", 10, 10, 30⟩ [("a", 2)] =
        .ok ([(cpUnitOut ⟨"a", "b", 10, 10, 30⟩ "a", a₂)], i₂) ∧
      a₁ ≤ a₂ ∧ a₁ < cpReserveOut ⟨"a", "b", 10, 10, 30⟩ "a"
        ∧ a₂ < cpReserveOut ⟨"a", "b", 10, 10, 30⟩ "a") :=
  ⟨by decide, by decide,
    c5_bounded_monotone _ "a" 1 2 (Or.inl rfl) (by decide) (by decide) (by decide) (by decide)
      (by decide) (by decide)⟩

/-- C6 witness: the theorem instantiated on a concrete pool with nonzero
output. -/
theorem c6_witness :
    cpAmt ⟨"a", "b", 1000, 1000, 30⟩ "a" 100 ≠ 0 ∧
    CPPool.get_amount_out ⟨"a", "b", 1000, 1000, 30⟩ [("a", 100)] =
      .ok ([(cpUnitOut ⟨"a", "b", 1000, 1000, 30⟩ "a",
          cpAmt ⟨"a", "b", 1000, 1000, 30⟩ "a" 100)],
        ((cpReserveOut ⟨"a", "b", 1000, 1000, 30⟩ "a" * 100 *
            cpDen ⟨"a", "b", 1000, 1000, 30⟩ "a" 100 * (10000 - 30)
          - cpNum ⟨"a", "b", 1000, 1000, 30⟩ "a" 100 *
            cpReserveIn ⟨"a", "b", 1000, 1000, 30⟩ "a" * 10000 : ℤ) : ℚ)
        / ((cpReserveOut ⟨"a", "b", 1000, 1000, 30⟩ "a" * 100 *
            cpDen ⟨"a", "b", 1000, 1000, 30⟩ "a" 100 * 10000 : ℤ) : ℚ)) :=
  ⟨by decide, c6_price_impact_formula _ "a" 100 (Or.inl rfl) (by decide)⟩

/-- C7 witness: a one-unit input against reserves of a million floors to zero
output and zero price impact. -/
theorem c7_witness :
    cpDen ⟨"a", "b", 1000000, 1000000, 30⟩ "a" 1 ≠ 0 ∧
    cpAmt ⟨"a", "b", 1000000, 1000000, 30⟩ "a" 1 = 0 ∧
    CPPool.get_amount_out ⟨"a", "b", 1000000, 1000000, 30⟩ [("a", 1)] =
      .ok ([(cpUnitOut ⟨"a", "b", 1000000, 1000000, 30⟩ "a", 0)], 0) :=
  ⟨by decide, by decide, c7_zero_output_short_circuit _ "a" 1 (Or.inl rfl) (by decide) (by decide)⟩

/-- C8 witness: the amended theorem instantiated at input quantity 5. -/
theorem c8_witness :
    (0 : ℤ) < 5 ∧ (30 : ℤ) < 10000 ∧
    SSPool.get_y ⟨"a", "b", 0, 0, 30⟩ [("a", 5)] "b" = .ok [("b", 0)] :=
  ⟨by decide, by decide,
    (c8_degenerate_pool ⟨"a", "b", 0, 0, 30⟩ rfl rfl).2 "a" 5 "b" (Or.inl rfl) (Or.inr rfl)
      (by decide) (by decide)⟩

/-- C9 witness: the theorem instantiated on a concrete pool. -/
theorem c9_witness :
    cpAmt ⟨"a", "b", 1000, 1000, 30⟩ "a" 100 ≠ 0 ∧
    (CPPool.get_amount_out ⟨"a", "b", 1000, 1000, 30⟩ [("a", 100)] =
      .ok ([(cpUnitOut ⟨"a", "b", 1000, 1000, 30⟩ "a",
          cpAmt ⟨"a", "b", 1000, 1000, 30⟩ "a" 100)],
        (100 : ℚ) * (10000 - ((30 : ℤ) : ℚ)) ^ 2 /
          ((cpDen ⟨"a", "b", 1000, 1000, 30⟩ "a" 100 : ℚ) * 10000))
     ∧ 0 ≤ (100 : ℚ) * (10000 - ((30 : ℤ) : ℚ)) ^ 2 /
          ((cpDen ⟨"a", "b", 1000, 1000, 30⟩ "a" 100 : ℚ) * 10000)
     ∧ (100 : ℚ) * (10000 - ((30 : ℤ) : ℚ)) ^ 2 /
          ((cpDen ⟨"a", "b", 1000, 1000, 30⟩ "a" 100 : ℚ) * 10000) < 1) :=
  ⟨by decide, c9_price_impact_range _ "a" 100 (Or.inl rfl) (by decide) (by decide) (by decide)
    (by decide) (by decide) (by decide)⟩

/-- C10 witness: the theorem instantiated on the pool `(0, 5)` and an input
bag that would otherwise be rejected as invalid. -/
theorem c10_witness :
    ((0 : ℤ) = 0 ∧ (5 : ℤ) ≠ 0) ∧
    SSPool.get_D ⟨"a", "b", 0, 5, 30⟩ = .error .divByZero ∧
    SSPool.get_y ⟨"a", "b", 0, 5, 30⟩ [("a", 1), ("b", 1)] "b" = .error .divByZero :=
  ⟨⟨rfl, by decide⟩,
    (c10_one_sided_zero_reserves ⟨"a", "b", 0, 5, 30⟩ (Or.inl ⟨rfl, by decide⟩)).1,
    (c10_one_sided_zero_reserves ⟨"a", "b", 0, 5, 30⟩ (Or.inl ⟨rfl, by decide⟩)).2 _ _⟩

end Cardex
